import Mathlib

/- Shallow embedding of aten/src/ATen/native/Integration.cpp.
   Real scalar arithmetic is modelled exactly by the rationals; tensors are
   shape-indexed immutable arrays with row-major view semantics.  The array
   engine operations (slice, select, sum, cumsum, broadcasting arithmetic,
   view, zeros) follow the ATen semantics the source relies on; failing
   checks are modelled by the Except monad. -/

/-- Element type of a tensor: the source only distinguishes the boolean kind
(kBool) from the numeric kinds. -/
inductive DType where
  | float : DType
  | bool : DType
deriving DecidableEq

/-- Error kinds surfaced by TORCH_CHECK and by the array engine. -/
inductive Err where
  | typeErr : Err
  | shapeErr : Err
  | indexErr : Err
  | sizeErr : Err
deriving DecidableEq

/-- c10::Scalar: a real, complex or boolean payload. -/
inductive Scalar where
  | r : ℚ → Scalar
  | c : ℚ → ℚ → Scalar
  | b : Bool → Scalar

def Scalar.isComplex : Scalar → Bool
  | .c _ _ => true
  | _ => false

def Scalar.isBoolean : Scalar → Bool
  | .b _ => true
  | _ => false

def Scalar.toDouble : Scalar → ℚ
  | .r q => q
  | .c re _ => re
  | .b v => if v then 1 else 0

/-- Value of a multi-index (or of a shape) at position d, defaulting to 0. -/
def getAt : Nat → List Nat → Nat
  | _, [] => 0
  | 0, a :: _ => a
  | d+1, _ :: l => getAt d l

/-- Replace the entry at position d (no-op when out of range). -/
def setAt : Nat → Nat → List Nat → List Nat
  | _, _, [] => []
  | 0, v, _ :: l => v :: l
  | d+1, v, a :: l => a :: setAt d v l

/-- Insert a value at position d. -/
def insAt : Nat → Nat → List Nat → List Nat
  | 0, v, l => v :: l
  | _+1, v, [] => [v]
  | d+1, v, a :: l => a :: insAt d v l

/-- Remove the entry at position d. -/
def remAt : Nat → List Nat → List Nat
  | _, [] => []
  | 0, _ :: l => l
  | d+1, a :: l => a :: remAt d l

/-- All valid multi-indices of a shape, in row-major order. -/
def allIdx : List Nat → List (List Nat)
  | [] => [[]]
  | n :: ns => (List.range n).flatMap fun i => (allIdx ns).map fun idx => i :: idx

/-- Validity of a multi-index for a shape: same length, pointwise bounded. -/
def IdxOk : List Nat → List Nat → Prop
  | [], [] => True
  | n :: ns, i :: is => i < n ∧ IdxOk ns is
  | _, _ => False

/-- A tensor: a shape, an element type, and the element at each multi-index.
The data function is only ever consulted on valid indices of the shape. -/
structure Tensor where
  shape : List Nat
  dtype : DType
  data : List Nat → ℚ

def Tensor.rank (t : Tensor) : Nat := t.shape.length

/-- Size of a tensor along a (already validated, 0-based) dimension. -/
def tsizeAt (t : Tensor) (d : Nat) : Nat := getAt d t.shape

/-- Extensional equality of tensors: same shape and same elements at every
valid multi-index. -/
def Tensor.Eqv (a b : Tensor) : Prop :=
  a.shape = b.shape ∧ ∀ idx ∈ allIdx a.shape, a.data idx = b.data idx

instance (a b : Tensor) : Decidable (a.Eqv b) :=
  decidable_of_iff (a.shape = b.shape ∧ ∀ idx ∈ allIdx a.shape, a.data idx = b.data idx)
    Iff.rfl

/-- Extensional equality of fallible tensor results: both fail with the same
error, or both succeed with extensionally equal tensors. -/
def EEqv : Except Err Tensor → Except Err Tensor → Prop
  | .ok a, .ok b => a.Eqv b
  | .error e, .error f => e = f
  | _, _ => False

instance : (a b : Except Err Tensor) → Decidable (EEqv a b)
  | .ok a, .ok b => decidable_of_iff (a.Eqv b) Iff.rfl
  | .ok _, .error _ => .isFalse fun h => h
  | .error _, .ok _ => .isFalse fun h => h
  | .error e, .error f => decidable_of_iff (e = f) Iff.rfl

/-- Whether a fallible call produced a tensor. -/
def isOkB : Except Err Tensor → Bool
  | .ok _ => true
  | .error _ => false

/-- Sequencing of fallible computations: errors short-circuit. -/
def ebind {α β : Type} (e : Except Err α) (f : α → Except Err β) : Except Err β :=
  match e with
  | .error err => .error err
  | .ok a => f a

/-- Size along dimension d of the tensor produced by a fallible call
(0 when the call failed). -/
def okSizeAt (e : Except Err Tensor) (d : Nat) : Nat :=
  match e with
  | .ok t => tsizeAt t d
  | .error _ => 0

/-- Effective rank for dimension wrapping: rank 0 is treated as rank 1
(ATen scalar wrapping). -/
def effRank (rank : Nat) : Nat := if rank = 0 then 1 else rank

/-- Value of ATen maybe_wrap_dim when in range: negative dims count from the
end. -/
def wrapDimT (dim : Int) (rank : Nat) : Nat :=
  if dim < 0 then (dim + effRank rank).toNat else dim.toNat

/-- ATen maybe_wrap_dim: wraps a possibly negative dimension index, failing
with an IndexError-kind condition when out of range. -/
def maybe_wrap_dim (dim : Int) (rank : Nat) : Except Err Nat :=
  if dim < -(effRank rank : Int) ∨ (effRank rank : Int) ≤ dim then .error Err.indexErr
  else .ok (wrapDimT dim rank)

/-- Tensor::size(dim): wraps dim, rejecting 0-dim tensors. -/
def tsize (t : Tensor) (dim : Int) : Except Err Nat :=
  if t.rank = 0 then .error Err.indexErr
  else ebind (maybe_wrap_dim dim t.rank) fun d => .ok (tsizeAt t d)

/-- Slice data/shape transform at a validated dim: a window of the given
length starting at offset s. -/
def sliceCore (t : Tensor) (d s len : Nat) : Tensor :=
  ⟨setAt d len t.shape, t.dtype, fun idx => t.data (setAt d (getAt d idx + s) idx)⟩

/-- A possibly negative slice endpoint counts from the end of the axis. -/
def wrapIdx (v : Int) (m : Nat) : Int := if v < 0 then v + m else v

/-- Clamp a slice endpoint into [0, m]. -/
def clampIdx (v : Int) (m : Nat) : Int := if v < 0 then 0 else if (m : Int) < v then m else v

/-- ATen slice start/stop normalization at axis size m: negative values count
from the end and the results are clamped into [0, m]; returns the start
offset and the length of the slice. -/
def sliceBounds (m : Nat) (start : Int) (stop : Option Int) : Nat × Nat :=
  ((clampIdx (wrapIdx start m) m).toNat,
    (clampIdx (match stop with | none => (m : Int) | some e => wrapIdx e m) m
      - clampIdx (wrapIdx start m) m).toNat)

/-- Tensor::slice(dim, start, stop) with unit step; stop = none means
slicing to the end of the axis. -/
def tslice (t : Tensor) (dim start : Int) (stop : Option Int) : Except Err Tensor :=
  if t.rank = 0 then .error Err.indexErr
  else
    ebind (maybe_wrap_dim dim t.rank) fun d =>
      .ok (sliceCore t d (sliceBounds (tsizeAt t d) start stop).1
        (sliceBounds (tsizeAt t d) start stop).2)

/-- Select data/shape transform at a validated dim and in-range index. -/
def selectCore (t : Tensor) (d j : Nat) : Tensor :=
  ⟨remAt d t.shape, t.dtype, fun idx => t.data (insAt d j idx)⟩

/-- Tensor::select(dim, j): removes the dimension, picking entry j (negative
j counts from the end); fails on 0-dim tensors and out-of-range indices. -/
def tselect (t : Tensor) (dim j : Int) : Except Err Tensor :=
  if t.rank = 0 then .error Err.indexErr
  else
    ebind (maybe_wrap_dim dim t.rank) fun d =>
      if j < -(tsizeAt t d : Int) ∨ (tsizeAt t d : Int) ≤ j then .error Err.indexErr
      else .ok (selectCore t d (if j < 0 then (j + tsizeAt t d).toNat else j.toNat))

/-- Sum-collapse data/shape transform along a validated dim. -/
def sumCore (t : Tensor) (d : Nat) : Tensor :=
  ⟨remAt d t.shape, t.dtype,
    fun idx => ((List.range (tsizeAt t d)).map fun i => t.data (insAt d i idx)).sum⟩

/-- Tensor::sum(dim) with keepdim = false; a 0-dim tensor sums to itself. -/
def tSum (t : Tensor) (dim : Int) : Except Err Tensor :=
  ebind (maybe_wrap_dim dim t.rank) fun d =>
    .ok (if t.rank = 0 then t else sumCore t d)

/-- Inclusive prefix-sum data transform along a validated dim. -/
def cumsumCore (t : Tensor) (d : Nat) : Tensor :=
  ⟨t.shape, t.dtype,
    fun idx => ((List.range (getAt d idx + 1)).map fun i => t.data (setAt d i idx)).sum⟩

/-- Tensor::cumsum(dim); a 0-dim tensor is its own prefix sum. -/
def tcumsum (t : Tensor) (dim : Int) : Except Err Tensor :=
  ebind (maybe_wrap_dim dim t.rank) fun d =>
    .ok (if t.rank = 0 then t else cumsumCore t d)

/-- Map a multi-index of a broadcast result to a multi-index of an operand of
shape s: drop the extra leading axes and send size-1 axes to position 0. -/
def bIdxOf (s idx : List Nat) : List Nat :=
  List.zipWith (fun n i => if n = 1 then 0 else i) s (idx.drop (idx.length - s.length))

/-- Pointwise broadcast of two equal-rank shapes: sizes must agree or one of
them must be 1 (ATen infer_size). -/
def bcast2 : List Nat → List Nat → Except Err (List Nat)
  | [], [] => .ok []
  | a :: as, b :: bs =>
    ebind (bcast2 as bs) fun r =>
      if a = b then .ok (a :: r)
      else if a = 1 then .ok (b :: r)
      else if b = 1 then .ok (a :: r)
      else .error Err.sizeErr
  | _, _ => .error Err.sizeErr

/-- Broadcast shape of two shapes: right-aligned, the shorter one padded with
leading 1s. -/
def bshape (s1 s2 : List Nat) : Except Err (List Nat) :=
  let r := max s1.length s2.length
  bcast2 (List.replicate (r - s1.length) 1 ++ s1) (List.replicate (r - s2.length) 1 ++ s2)

/-- Element-wise binary operation data at a computed broadcast shape. -/
def binCore (f : ℚ → ℚ → ℚ) (a b : Tensor) (sh : List Nat) : Tensor :=
  ⟨sh, DType.float, fun idx => f (a.data (bIdxOf a.shape idx)) (b.data (bIdxOf b.shape idx))⟩

/-- Element-wise binary operation with ATen broadcasting. -/
def tbin (f : ℚ → ℚ → ℚ) (a b : Tensor) : Except Err Tensor :=
  ebind (bshape a.shape b.shape) fun sh => .ok (binCore f a b sh)

def tadd (a b : Tensor) : Except Err Tensor := tbin (fun u v => u + v) a b

def tsub (a b : Tensor) : Except Err Tensor := tbin (fun u v => u - v) a b

def tmul (a b : Tensor) : Except Err Tensor := tbin (fun u v => u * v) a b

/-- Tensor-times-scalar (t * c). -/
def tsmul (t : Tensor) (cs : ℚ) : Tensor :=
  ⟨t.shape, t.dtype, fun idx => t.data idx * cs⟩

/-- Scalar-times-tensor (c * t). -/
def tsmulL (cs : ℚ) (t : Tensor) : Tensor :=
  ⟨t.shape, t.dtype, fun idx => cs * t.data idx⟩

/-- Tensor divided by a scalar (t / c). -/
def tdivs (t : Tensor) (cs : ℚ) : Tensor :=
  ⟨t.shape, t.dtype, fun idx => t.data idx / cs⟩

/-- Row-major flat offset of a multi-index within a shape. -/
def flatIdx : List Nat → List Nat → Nat
  | _, [] => 0
  | [], _ => 0
  | _ :: ns, i :: is => i * ns.prod + flatIdx ns is

/-- Row-major multi-index of a flat offset within a shape. -/
def unflat : List Nat → Nat → List Nat
  | [], _ => []
  | _ :: ns, k => (k / ns.prod) :: unflat ns (k % ns.prod)

/-- Tensor::view(sizes): reinterpret the row-major data in a new shape with
the same number of elements. -/
def tview (t : Tensor) (sizes : List Nat) : Except Err Tensor :=
  if sizes.prod = t.shape.prod then
    .ok ⟨sizes, t.dtype, fun idx => t.data (unflat t.shape (flatIdx sizes idx))⟩
  else .error Err.sizeErr

/-- Integration.cpp zeros_like_except: a zero tensor shaped like y with the
given (wrapped) dimension removed, keeping y's element type. -/
def zeros_like_except (y : Tensor) (dim : Int) : Except Err Tensor :=
  ebind (maybe_wrap_dim dim y.rank) fun d => .ok ⟨remAt d y.shape, y.dtype, fun _ => 0⟩

/-- Integration.cpp do_trapezoid (per-interval spacing tensor dx):
sum over dim of (left + right) * dx, halved. -/
def do_trapezoid (y dx : Tensor) (dim : Int) : Except Err Tensor :=
  ebind (tslice y dim 0 (some (-1))) fun left =>
    ebind (tslice y dim 1 none) fun right =>
      ebind (tadd left right) fun lr =>
        ebind (tmul lr dx) fun p =>
          ebind (tSum p dim) fun s => .ok (tdivs s 2)

/-- Integration.cpp do_trapezoid (uniform scalar spacing dx):
(sum over dim of y minus (first + last) * 0.5) * dx. -/
def do_trapezoid_uniform (y : Tensor) (dx : ℚ) (dim : Int) : Except Err Tensor :=
  ebind (tSum y dim) fun s =>
    ebind (tselect y dim 0) fun y0 =>
      ebind (tselect y dim (-1)) fun yl =>
        ebind (tadd y0 yl) fun ends =>
          ebind (tsub s (tsmul ends (1/2))) fun d => .ok (tsmul d dx)

/-- Integration.cpp do_cumulative_trapezoid (spacing tensor dx):
cumsum over dim of (left + right) * dx, halved. -/
def do_cumulative_trapezoid (y dx : Tensor) (dim : Int) : Except Err Tensor :=
  ebind (tslice y dim 0 (some (-1))) fun left =>
    ebind (tslice y dim 1 none) fun right =>
      ebind (tadd left right) fun lr =>
        ebind (tmul lr dx) fun p =>
          ebind (tcumsum p dim) fun cs => .ok (tdivs cs 2)

/-- Integration.cpp do_cumulative_trapezoid (uniform scalar spacing dx):
cumsum over dim of dx / 2 * (left + right). -/
def do_cumulative_trapezoid_uniform (y : Tensor) (dx : ℚ) (dim : Int) : Except Err Tensor :=
  ebind (tslice y dim 0 (some (-1))) fun left =>
    ebind (tslice y dim 1 none) fun right =>
      ebind (tadd left right) fun lr => tcumsum (tsmulL (dx / 2) lr) dim

/-- Integration.cpp add_padding_to_shape: pad the current shape with leading
1s up to the target number of dimensions (no padding when the current shape
already has at least that many dimensions). -/
def add_padding_to_shape (curr_shape : List Nat) (target_n_dim : Nat) : List Nat :=
  let t := if target_n_dim ≤ curr_shape.length then curr_shape.length else target_n_dim
  (List.range curr_shape.length).foldl
    (fun new_shape i => setAt (t - i - 1) (getAt (curr_shape.length - i - 1) curr_shape) new_shape)
    (List.replicate t 1)

/-- The x-viewing step shared verbatim by trapezoid (lines 80-99) and
cumulative_trapezoid (lines 130-141): a rank-1 x must have one value per
sample along the integration axis and is viewed with 1s elsewhere; an x of
lower rank than y is viewed with the padded shape; otherwise x is used
as-is. -/
def x_view_for (y x : Tensor) (d : Nat) : Except Err Tensor :=
  if x.rank = 1 then
    ebind (tsize x 0) fun xn =>
      ebind (tsize y (d : Int)) fun n =>
        if xn ≠ n then .error Err.shapeErr
        else tview x (setAt d xn (List.replicate y.rank 1))
  else if x.rank < y.rank then tview x (add_padding_to_shape x.shape y.rank)
  else .ok x

/-- The spacing computation shared by trapezoid (lines 100-105) and
cumulative_trapezoid (lines 142-144): dx is the difference of the two
off-by-one slices of the viewed x along the integration axis. -/
def spacing_dx (y x : Tensor) (d : Nat) : Except Err Tensor :=
  ebind (x_view_for y x d) fun x_viewed =>
    ebind (tslice x_viewed (d : Int) 0 (some (-1))) fun x_left =>
      ebind (tslice x_viewed (d : Int) 1 none) fun x_right =>
        tsub x_right x_left

/-- Integration.cpp trapezoid(y, x, dim): wrap dim, return zeros on an empty
integration axis, reject bool inputs, compute dx from x and reduce. -/
def trapezoid (y x : Tensor) (dim : Int) : Except Err Tensor :=
  ebind (maybe_wrap_dim dim y.rank) fun d =>
    ebind (tsize y (d : Int)) fun n =>
      if n = 0 then zeros_like_except y (d : Int)
      else if y.dtype = DType.bool ∨ x.dtype = DType.bool then .error Err.typeErr
      else ebind (spacing_dx y x d) fun dx => do_trapezoid y dx (d : Int)

/-- Integration.cpp trapezoid(y, dx, dim) for scalar dx: return zeros on an
empty integration axis, reject a bool y and a complex or boolean dx. -/
def trapezoid_dx (y : Tensor) (dx : Scalar) (dim : Int) : Except Err Tensor :=
  ebind (tsize y dim) fun n =>
    if n = 0 then zeros_like_except y dim
    else if y.dtype = DType.bool then .error Err.typeErr
    else if dx.isComplex || dx.isBoolean then .error Err.typeErr
    else do_trapezoid_uniform y dx.toDouble dim

/-- Integration.cpp trapz(y, x, dim): delegates to trapezoid. -/
def trapz (y x : Tensor) (dim : Int) : Except Err Tensor := trapezoid y x dim

/-- Integration.cpp trapz(y, dx, dim): delegates to trapezoid. -/
def trapz_dx (y : Tensor) (dx : ℚ) (dim : Int) : Except Err Tensor :=
  trapezoid_dx y (Scalar.r dx) dim

/-- Integration.cpp cumulative_trapezoid(y, x, dim): wrap dim, reject bool
inputs, compute dx from x and accumulate; there is no empty-axis guard. -/
def cumulative_trapezoid (y x : Tensor) (dim : Int) : Except Err Tensor :=
  ebind (maybe_wrap_dim dim y.rank) fun d =>
    if y.dtype = DType.bool ∨ x.dtype = DType.bool then .error Err.typeErr
    else ebind (spacing_dx y x d) fun dx => do_cumulative_trapezoid y dx (d : Int)

/-- Integration.cpp cumulative_trapezoid(y, dx, dim) for scalar dx: reject a
bool y and a complex or boolean dx; there is no empty-axis guard and no
explicit dim normalization at this level. -/
def cumulative_trapezoid_dx (y : Tensor) (dx : Scalar) (dim : Int) : Except Err Tensor :=
  if y.dtype = DType.bool then .error Err.typeErr
  else if dx.isComplex || dx.isBoolean then .error Err.typeErr
  else do_cumulative_trapezoid_uniform y dx.toDouble dim

/-- The last entry along the (wrapped) integration axis of the cumulative
integral with explicit coordinates. -/
def lastOfCum (y x : Tensor) (dim : Int) : Except Err Tensor :=
  ebind (cumulative_trapezoid y x dim) fun cs =>
    tselect cs ((wrapDimT dim y.rank : Nat) : Int) (-1)

/-- The last entry along the (wrapped) integration axis of the cumulative
integral with uniform scalar spacing. -/
def lastOfCum_dx (y : Tensor) (dx : Scalar) (dim : Int) : Except Err Tensor :=
  ebind (cumulative_trapezoid_dx y dx dim) fun cs =>
    tselect cs ((wrapDimT dim y.rank : Nat) : Int) (-1)

/-- A float tensor of a given shape from a row-major list of elements. -/
def ofL (shape : List Nat) (xs : List ℚ) : Tensor :=
  ⟨shape, DType.float, fun idx => xs.getD (flatIdx shape idx) 0⟩

/-- A bool-typed tensor of a given shape (its numeric payload is irrelevant to
the modelled checks). -/
def ofLB (shape : List Nat) : Tensor :=
  ⟨shape, DType.bool, fun _ => 0⟩

/-- A float tensor of a given shape with every element equal to c
(the spec's dx-array-filled-with-h). -/
def fullT (shape : List Nat) (c : ℚ) : Tensor :=
  ⟨shape, DType.float, fun _ => c⟩

/-- An all-zero float tensor of a given shape. -/
def zerosT (shape : List Nat) : Tensor :=
  ⟨shape, DType.float, fun _ => 0⟩

/-- Modelled from the spec: the per-interval spacing tensor described in the
spec, with one fewer entry along the integration axis than the viewed x and
each entry the difference of consecutive coordinate samples. -/
def diffT (xv : Tensor) (d : Nat) : Tensor :=
  ⟨setAt d (tsizeAt xv d - 1) xv.shape, xv.dtype,
    fun idx => xv.data (setAt d (getAt d idx + 1) idx) - xv.data (setAt d (getAt d idx) idx)⟩

theorem ebind_ok {α β : Type} (a : α) (f : α → Except Err β) : ebind (.ok a) f = f a := rfl

theorem ebind_eq_ok {α β : Type} {e : Except Err α} {f : α → Except Err β} {b : β}
    (h : ebind e f = .ok b) : ∃ a, e = .ok a ∧ f a = .ok b := by
  cases e with
  | error err => exact absurd h (by simp [ebind])
  | ok a => exact ⟨a, rfl, h⟩

theorem length_setAt (d v : Nat) (l : List Nat) : (setAt d v l).length = l.length := by
  induction l generalizing d with
  | nil => cases d <;> rfl
  | cons a t ih => cases d with
    | zero => rfl
    | succ d => simp [setAt, ih]

theorem getAt_setAt {d : Nat} {l : List Nat} (hd : d < l.length) (v : Nat) :
    getAt d (setAt d v l) = v := by
  induction l generalizing d with
  | nil => simp at hd
  | cons a t ih => cases d with
    | zero => rfl
    | succ d => exact ih (by simpa using hd)

theorem setAt_eq_self {d v : Nat} {l : List Nat} (h : getAt d l = v) : setAt d v l = l := by
  induction l generalizing d with
  | nil => cases d <;> rfl
  | cons a t ih => cases d with
    | zero => simp [getAt] at h; simp [setAt, h]
    | succ d => simp only [setAt, List.cons.injEq, true_and]; exact ih h

theorem remAt_setAt (d v : Nat) (l : List Nat) : remAt d (setAt d v l) = remAt d l := by
  induction l generalizing d with
  | nil => cases d <;> rfl
  | cons a t ih => cases d with
    | zero => rfl
    | succ d => simp [setAt, remAt, ih]

theorem length_remAt {d : Nat} {l : List Nat} (h : d < l.length) :
    (remAt d l).length = l.length - 1 := by
  induction l generalizing d with
  | nil => simp at h
  | cons a t ih => cases d with
    | zero => simp [remAt]
    | succ d =>
      simp only [List.length_cons] at h
      have := ih (d := d) (by omega)
      simp only [remAt, List.length_cons, this]
      omega

theorem getAt_insAt {d : Nat} {idx : List Nat} (h : d ≤ idx.length) (j : Nat) :
    getAt d (insAt d j idx) = j := by
  induction idx generalizing d with
  | nil =>
    have hd0 : d = 0 := by simpa using h
    subst hd0; rfl
  | cons a t ih => cases d with
    | zero => rfl
    | succ d => exact ih (by simpa using h)

theorem setAt_insAt {d : Nat} {idx : List Nat} (h : d ≤ idx.length) (v j : Nat) :
    setAt d v (insAt d j idx) = insAt d v idx := by
  induction idx generalizing d with
  | nil =>
    have hd0 : d = 0 := by simpa using h
    subst hd0; rfl
  | cons a t ih => cases d with
    | zero => rfl
    | succ d =>
      simp only [insAt, setAt, List.cons.injEq, true_and]
      exact ih (by simpa using h)

theorem IdxOk_length {s idx : List Nat} (h : IdxOk s idx) : idx.length = s.length := by
  induction s generalizing idx with
  | nil => cases idx with
    | nil => rfl
    | cons i is => exact absurd h (by simp [IdxOk])
  | cons n ns ih => cases idx with
    | nil => exact absurd h (by simp [IdxOk])
    | cons i is => simpa using ih h.2

theorem mem_allIdx {s idx : List Nat} : idx ∈ allIdx s ↔ IdxOk s idx := by
  induction s generalizing idx with
  | nil =>
    cases idx with
    | nil => simp [allIdx, IdxOk]
    | cons i is => simp [allIdx, IdxOk]
  | cons n ns ih =>
    cases idx with
    | nil =>
      constructor
      · intro hm
        simp only [allIdx, List.mem_flatMap, List.mem_map] at hm
        obtain ⟨j, _, jidx, _, heq⟩ := hm
        exact absurd heq (by simp)
      · intro hok
        exact absurd hok (by simp [IdxOk])
    | cons i is =>
      simp only [allIdx, List.mem_flatMap, List.mem_map, List.mem_range, IdxOk]
      constructor
      · rintro ⟨j, hj, jidx, hmem, heq⟩
        cases heq
        exact ⟨hj, ih.mp hmem⟩
      · rintro ⟨hi, hok⟩
        exact ⟨i, hi, is, ih.mpr hok, rfl⟩

theorem Tensor.eqv_of {a b : Tensor} (hs : a.shape = b.shape)
    (h : ∀ idx, IdxOk a.shape idx → a.data idx = b.data idx) : a.Eqv b :=
  ⟨hs, fun idx hm => h idx (mem_allIdx.mp hm)⟩

theorem IdxOk_insAt {s : List Nat} {d : Nat} {idx : List Nat} (hd : d < s.length)
    (hidx : IdxOk (remAt d s) idx) {i : Nat} (hi : i < getAt d s) :
    IdxOk s (insAt d i idx) := by
  induction s generalizing d idx with
  | nil => simp at hd
  | cons n ns ih =>
    cases d with
    | zero => exact ⟨hi, hidx⟩
    | succ d =>
      cases idx with
      | nil =>
        have hl := IdxOk_length hidx
        rw [length_remAt hd] at hl
        simp only [List.length_nil, List.length_cons] at hl
        have hi2 : i < getAt d ns := hi
        have hns : ns = [] := List.length_eq_zero.mp (by omega)
        subst hns
        cases d <;> simp [getAt] at hi2
      | cons a t =>
        obtain ⟨h1, h2⟩ := hidx
        exact ⟨h1, ih (by simpa using hd) h2 hi⟩

theorem IdxOk_setAt_insAt {s : List Nat} {d : Nat} {idx : List Nat} (hd : d < s.length)
    (hidx : IdxOk (remAt d s) idx) {i v : Nat} (hi : i < v) :
    IdxOk (setAt d v s) (insAt d i idx) := by
  have h1 : d < (setAt d v s).length := by rw [length_setAt]; exact hd
  have h2 : IdxOk (remAt d (setAt d v s)) idx := by rw [remAt_setAt]; exact hidx
  have h3 : getAt d (setAt d v s) = v := getAt_setAt hd v
  exact IdxOk_insAt h1 h2 (by omega)

theorem zipWith_one_idx {s idx : List Nat} (h : IdxOk s idx) :
    List.zipWith (fun n i => if n = 1 then 0 else i) s idx = idx := by
  induction s generalizing idx with
  | nil => cases idx with
    | nil => rfl
    | cons i is => exact absurd h (by simp [IdxOk])
  | cons n ns ih =>
    cases idx with
    | nil => exact absurd h (by simp [IdxOk])
    | cons i is =>
      obtain ⟨h1, h2⟩ := h
      simp only [List.zipWith_cons_cons, ih h2, List.cons.injEq, and_true]
      by_cases hn : n = 1
      · subst hn
        rw [if_pos rfl]
        omega
      · simp [hn]

theorem bIdxOf_self {s idx : List Nat} (h : IdxOk s idx) : bIdxOf s idx = idx := by
  unfold bIdxOf
  rw [IdxOk_length h, Nat.sub_self, List.drop_zero]
  exact zipWith_one_idx h

theorem bcast2_same (s : List Nat) : bcast2 s s = .ok s := by
  induction s with
  | nil => rfl
  | cons a t ih => simp [bcast2, ih, ebind_ok]

theorem bshape_same (s : List Nat) : bshape s s = .ok s := by
  unfold bshape
  simp [bcast2_same]

theorem bcast2_length {a b r : List Nat} (h : bcast2 a b = .ok r) : r.length = a.length := by
  induction a generalizing b r with
  | nil =>
    cases b with
    | nil => cases h; rfl
    | cons x xs => exact absurd h (by simp [bcast2])
  | cons x xs ih =>
    cases b with
    | nil => exact absurd h (by simp [bcast2])
    | cons y ys =>
      obtain ⟨r0, hr0, hres⟩ := ebind_eq_ok h
      split_ifs at hres <;> cases hres <;> simp [ih hr0]

theorem bshape_length {s1 s2 r : List Nat} (h : bshape s1 s2 = .ok r) :
    r.length = max s1.length s2.length := by
  unfold bshape at h
  have := bcast2_length h
  simpa using this

theorem sum_range_succ (f : Nat → ℚ) (n : Nat) :
    ((List.range (n+1)).map f).sum = ((List.range n).map f).sum + f n := by
  simp [List.range_succ]

theorem sum_congr_range {f g : Nat → ℚ} (n : Nat) (h : ∀ i < n, f i = g i) :
    ((List.range n).map f).sum = ((List.range n).map g).sum := by
  induction n with
  | zero => rfl
  | succ m ih =>
    rw [sum_range_succ, sum_range_succ, ih (fun i hi => h i (by omega)), h m (by omega)]

theorem sum_mul_right (f : Nat → ℚ) (c : ℚ) (n : Nat) :
    ((List.range n).map fun i => f i * c).sum = ((List.range n).map f).sum * c := by
  induction n with
  | zero => simp
  | succ m ih => rw [sum_range_succ, sum_range_succ, ih]; ring

theorem sum_mul_left (f : Nat → ℚ) (c : ℚ) (n : Nat) :
    ((List.range n).map fun i => c * f i).sum = c * ((List.range n).map f).sum := by
  induction n with
  | zero => simp
  | succ m ih => rw [sum_range_succ, sum_range_succ, ih]; ring

theorem sum_consec (f : Nat → ℚ) :
    ∀ n : Nat, 1 ≤ n →
      ((List.range (n-1)).map fun i => f i + f (i+1)).sum
        = 2 * ((List.range n).map f).sum - f 0 - f (n-1) := by
  intro n
  induction n with
  | zero => omega
  | succ m ih =>
    intro _
    cases Nat.eq_zero_or_pos m with
    | inl h0 =>
      subst h0
      show ((List.range 0).map fun i => f i + f (i+1)).sum
        = 2 * ((List.range 1).map f).sum - f 0 - f 0
      rw [show (1:Nat) = 0 + 1 from rfl, List.range_succ]
      simp only [List.range_zero, List.nil_append, List.map_cons, List.map_nil,
        List.sum_cons, List.sum_nil]
      ring
    | inr hpos =>
      have hm : m + 1 - 1 = (m - 1) + 1 := by omega
      rw [hm, sum_range_succ, ih hpos, sum_range_succ]
      have h1 : m - 1 + 1 = m := by omega
      rw [h1]
      ring

theorem wrapDimT_natcast (d : Nat) (r : Nat) : wrapDimT (d : Int) r = d := by
  unfold wrapDimT
  simp

theorem effRank_pos_eq {r : Nat} (hr : r ≠ 0) : effRank r = r := by
  unfold effRank
  rw [if_neg hr]

theorem maybe_wrap_dim_natcast {d r : Nat} (h : d < r) : maybe_wrap_dim (d : Int) r = .ok d := by
  unfold maybe_wrap_dim
  rw [effRank_pos_eq (by omega), if_neg (by omega), wrapDimT_natcast]

theorem maybe_wrap_dim_eq {dim : Int} {r d : Nat} (h : maybe_wrap_dim dim r = .ok d) :
    d = wrapDimT dim r := by
  unfold maybe_wrap_dim at h
  split_ifs at h with h1
  injection h with h2
  exact h2.symm

theorem maybe_wrap_dim_lt {dim : Int} {r d : Nat} (h : maybe_wrap_dim dim r = .ok d)
    (hr : r ≠ 0) : d < r := by
  unfold maybe_wrap_dim at h
  split_ifs at h with h1
  injection h with h2
  rw [effRank_pos_eq hr] at h1
  push_neg at h1
  unfold wrapDimT at h2
  rw [effRank_pos_eq hr] at h2
  split_ifs at h2 <;> omega

theorem tsize_eval {t : Tensor} {d : Nat} (hd : d < t.rank) :
    tsize t (d : Int) = .ok (tsizeAt t d) := by
  unfold tsize
  rw [if_neg (by omega), maybe_wrap_dim_natcast hd, ebind_ok]

theorem sliceBounds_left (m : Nat) : sliceBounds m 0 (some (-1)) = (0, m - 1) := by
  unfold sliceBounds wrapIdx clampIdx
  simp only [Prod.mk.injEq]
  split_ifs <;> constructor <;> omega

theorem sliceBounds_right {m : Nat} (hm : 1 ≤ m) : sliceBounds m 1 none = (1, m - 1) := by
  unfold sliceBounds wrapIdx clampIdx
  simp only [Prod.mk.injEq]
  split_ifs <;> constructor <;> omega

theorem sliceBounds_right_empty : sliceBounds 0 1 none = (0, 0) := by
  unfold sliceBounds wrapIdx clampIdx
  simp only [Prod.mk.injEq]
  split_ifs <;> constructor <;> omega

theorem tslice_eval {t : Tensor} {dim : Int} {d : Nat} (hr : t.rank ≠ 0)
    (hw : maybe_wrap_dim dim t.rank = .ok d) (start : Int) (stop : Option Int) :
    tslice t dim start stop
      = .ok (sliceCore t d (sliceBounds (tsizeAt t d) start stop).1
          (sliceBounds (tsizeAt t d) start stop).2) := by
  unfold tslice
  rw [if_neg hr, hw, ebind_ok]

theorem tslice_left {t : Tensor} {dim : Int} {d : Nat} (hr : t.rank ≠ 0)
    (hw : maybe_wrap_dim dim t.rank = .ok d) :
    tslice t dim 0 (some (-1)) = .ok (sliceCore t d 0 (tsizeAt t d - 1)) := by
  rw [tslice_eval hr hw, sliceBounds_left]

theorem tslice_right {t : Tensor} {dim : Int} {d : Nat} (hr : t.rank ≠ 0)
    (hw : maybe_wrap_dim dim t.rank = .ok d) (hm : 1 ≤ tsizeAt t d) :
    tslice t dim 1 none = .ok (sliceCore t d 1 (tsizeAt t d - 1)) := by
  rw [tslice_eval hr hw, sliceBounds_right hm]

theorem tslice_right_empty {t : Tensor} {dim : Int} {d : Nat} (hr : t.rank ≠ 0)
    (hw : maybe_wrap_dim dim t.rank = .ok d) (hm : tsizeAt t d = 0) :
    tslice t dim 1 none = .ok (sliceCore t d 0 0) := by
  rw [tslice_eval hr hw, hm, sliceBounds_right_empty]

theorem tselect_zero {t : Tensor} {dim : Int} {d : Nat} (hr : t.rank ≠ 0)
    (hw : maybe_wrap_dim dim t.rank = .ok d) (hm : 1 ≤ tsizeAt t d) :
    tselect t dim 0 = .ok (selectCore t d 0) := by
  unfold tselect
  rw [if_neg hr, hw, ebind_ok, if_neg (by push_neg; omega), if_neg (by omega)]
  norm_num

theorem tselect_last {t : Tensor} {dim : Int} {d : Nat} (hr : t.rank ≠ 0)
    (hw : maybe_wrap_dim dim t.rank = .ok d) (hm : 1 ≤ tsizeAt t d) :
    tselect t dim (-1) = .ok (selectCore t d (tsizeAt t d - 1)) := by
  unfold tselect
  rw [if_neg hr, hw, ebind_ok, if_neg (by push_neg; omega), if_pos (by omega)]
  congr 1
  have : ((-1 : Int) + tsizeAt t d).toNat = tsizeAt t d - 1 := by omega
  rw [this]

theorem tselect_empty {t : Tensor} {dim : Int} {d : Nat} (hr : t.rank ≠ 0)
    (hw : maybe_wrap_dim dim t.rank = .ok d) (hm : tsizeAt t d = 0) :
    tselect t dim (-1) = .error Err.indexErr := by
  unfold tselect
  rw [if_neg hr, hw, ebind_ok, if_pos (by omega)]

theorem tSum_eval {t : Tensor} {dim : Int} {d : Nat} (hr : t.rank ≠ 0)
    (hw : maybe_wrap_dim dim t.rank = .ok d) :
    tSum t dim = .ok (sumCore t d) := by
  unfold tSum
  rw [hw, ebind_ok, if_neg hr]

theorem tcumsum_eval {t : Tensor} {dim : Int} {d : Nat} (hr : t.rank ≠ 0)
    (hw : maybe_wrap_dim dim t.rank = .ok d) :
    tcumsum t dim = .ok (cumsumCore t d) := by
  unfold tcumsum
  rw [hw, ebind_ok, if_neg hr]

theorem tbin_same (f : ℚ → ℚ → ℚ) {a b : Tensor} (h : b.shape = a.shape) :
    tbin f a b = .ok (binCore f a b a.shape) := by
  unfold tbin
  rw [h, bshape_same, ebind_ok]

theorem tadd_same {a b : Tensor} (h : b.shape = a.shape) :
    tadd a b = .ok (binCore (fun u v => u + v) a b a.shape) := tbin_same _ h

theorem tsub_same {a b : Tensor} (h : b.shape = a.shape) :
    tsub a b = .ok (binCore (fun u v => u - v) a b a.shape) := tbin_same _ h

theorem tmul_same {a b : Tensor} (h : b.shape = a.shape) :
    tmul a b = .ok (binCore (fun u v => u * v) a b a.shape) := tbin_same _ h

theorem tview_ok {x : Tensor} {sizes : List Nat} (h : sizes.prod = x.shape.prod) :
    tview x sizes = .ok ⟨sizes, x.dtype, fun idx => x.data (unflat x.shape (flatIdx sizes idx))⟩ := by
  unfold tview
  rw [if_pos h]

theorem Tensor.eqv_refl (a : Tensor) : a.Eqv a := ⟨rfl, fun _ _ => rfl⟩

theorem tdivs_eqv {a b : Tensor} (h : a.Eqv b) (c : ℚ) : (tdivs a c).Eqv (tdivs b c) := by
  refine ⟨h.1, fun idx hm => ?_⟩
  show a.data idx / c = b.data idx / c
  rw [h.2 idx hm]

theorem selectCore_tdivs (u : Tensor) (c : ℚ) (d j : Nat) :
    selectCore (tdivs u c) d j = tdivs (selectCore u d j) c := rfl

theorem binCore_data_same {f : ℚ → ℚ → ℚ} {a b : Tensor} (hb : b.shape = a.shape)
    {idx : List Nat} (h : IdxOk a.shape idx) :
    (binCore f a b a.shape).data idx = f (a.data idx) (b.data idx) := by
  show f (a.data (bIdxOf a.shape idx)) (b.data (bIdxOf b.shape idx)) = _
  rw [bIdxOf_self h, hb, bIdxOf_self h]

theorem binCore_data_eq {f : ℚ → ℚ → ℚ} {a b : Tensor} {sh idx : List Nat}
    (ha : a.shape = sh) (hb : b.shape = sh) (h : IdxOk sh idx) :
    (binCore f a b sh).data idx = f (a.data idx) (b.data idx) := by
  show f (a.data (bIdxOf a.shape idx)) (b.data (bIdxOf b.shape idx)) = _
  rw [ha, hb, bIdxOf_self h]

theorem select_cumsum_last {t : Tensor} {d : Nat} (hd : d < t.rank) (hm : 1 ≤ tsizeAt t d) :
    (selectCore (cumsumCore t d) d (tsizeAt t d - 1)).Eqv (sumCore t d) := by
  have hs : (selectCore (cumsumCore t d) d (tsizeAt t d - 1)).shape = (sumCore t d).shape := rfl
  apply Tensor.eqv_of hs
  intro idx hidx
  have hd2 : d < t.shape.length := hd
  have hlen : idx.length = t.shape.length - 1 := by
    have h1 := IdxOk_length hidx
    have h2 : (selectCore (cumsumCore t d) d (tsizeAt t d - 1)).shape = remAt d t.shape := rfl
    rw [h2] at h1
    rw [h1, length_remAt hd2]
  have hdle : d ≤ idx.length := by omega
  show (cumsumCore t d).data (insAt d (tsizeAt t d - 1) idx)
    = ((List.range (tsizeAt t d)).map fun i => t.data (insAt d i idx)).sum
  show ((List.range (getAt d (insAt d (tsizeAt t d - 1) idx) + 1)).map
    fun i => t.data (setAt d i (insAt d (tsizeAt t d - 1) idx))).sum = _
  rw [getAt_insAt hdle]
  have hm1 : tsizeAt t d - 1 + 1 = tsizeAt t d := by omega
  rw [hm1]
  exact sum_congr_range _ fun i _ => by rw [setAt_insAt hdle]

theorem EEqv_ok {a b : Tensor} (h : a.Eqv b) : EEqv (.ok a) (.ok b) := h

/-- Claim C9: for the concrete input y = [1, 2, 3] with uniform scalar
spacing dx = 1 along axis 0, trapezoid returns 4. -/
theorem trapezoid_concrete_123 :
    EEqv (trapezoid_dx (ofL [3] [1, 2, 3]) (Scalar.r 1) 0) (.ok (ofL [] [4])) := by
  refine EEqv_ok ⟨rfl, ?_⟩
  intro idx hidx
  simp only [allIdx, List.mem_singleton] at hidx
  subst hidx
  show (tsmul (binCore (fun u v => u - v) (sumCore (ofL [3] [1, 2, 3]) 0)
    (tsmul (binCore (fun u v => u + v) (selectCore (ofL [3] [1, 2, 3]) 0 0)
      (selectCore (ofL [3] [1, 2, 3]) 0 2) []) (1/2)) []) 1).data []
    = (ofL [] [4]).data []
  norm_num [tsmul, binCore, sumCore, selectCore, ofL, bIdxOf, tsizeAt, getAt, insAt,
    flatIdx, List.range_succ]

theorem setAt_append_left {j : Nat} {l1 : List Nat} (h : j < l1.length) (v : Nat)
    (l2 : List Nat) : setAt j v (l1 ++ l2) = setAt j v l1 ++ l2 := by
  induction l1 generalizing j with
  | nil => simp at h
  | cons a t ih => cases j with
    | zero => rfl
    | succ j =>
      simp only [List.cons_append, setAt, List.cons.injEq, true_and]
      exact ih (by simpa using h)

theorem setAt_replicate {j r : Nat} (h : j < r) (v : Nat) :
    setAt j v (List.replicate r 1) = List.replicate j 1 ++ v :: List.replicate (r - j - 1) 1 := by
  induction r generalizing j with
  | zero => simp at h
  | succ r ih =>
    cases j with
    | zero => simp [setAt, List.replicate_succ]
    | succ j =>
      rw [List.replicate_succ]
      show (1 : Nat) :: setAt j v (List.replicate r 1) = _
      rw [ih (by omega)]
      simp [List.replicate_succ]

theorem drop_eq_getAt_cons {j : Nat} {l : List Nat} (h : j < l.length) :
    l.drop j = getAt j l :: l.drop (j + 1) := by
  induction l generalizing j with
  | nil => simp at h
  | cons a t ih => cases j with
    | zero => rfl
    | succ j =>
      show t.drop j = getAt j t :: t.drop (j + 1)
      exact ih (by simpa using h)

theorem add_padding_aux (curr : List Nat) (t : Nat) (ht : curr.length ≤ t) :
    ∀ k, k ≤ curr.length →
      (List.range k).foldl
        (fun new_shape i => setAt (t - i - 1) (getAt (curr.length - i - 1) curr) new_shape)
        (List.replicate t 1)
      = List.replicate (t - k) 1 ++ curr.drop (curr.length - k) := by
  intro k
  induction k with
  | zero => simp
  | succ k ih =>
    intro hk
    rw [List.range_succ, List.foldl_append, ih (by omega)]
    simp only [List.foldl_cons, List.foldl_nil]
    have h1 : t - k - 1 < (List.replicate (t - k) (1 : Nat)).length := by
      simp [List.length_replicate]
      omega
    rw [setAt_append_left h1]
    rw [setAt_replicate (by simp; omega)]
    have h2 : t - k - (t - k - 1) - 1 = 0 := by omega
    rw [h2]
    have h3 : curr.length - k - 1 < curr.length := by omega
    have h4 : curr.drop (curr.length - (k + 1)) = getAt (curr.length - k - 1) curr
        :: curr.drop (curr.length - k) := by
      have h5 : curr.length - (k + 1) = curr.length - k - 1 := by omega
      have h6 : curr.length - k = (curr.length - k - 1) + 1 := by omega
      rw [h5, h6]
      exact drop_eq_getAt_cons h3
    rw [h4]
    have h7 : t - k - 1 = t - (k + 1) := by omega
    rw [h7]
    simp

/-- Claim C5: the shape-padding function returns a shape of exactly
max(target_rank, current_rank) dimensions, with the original axis lengths
right-aligned in order and 1s in the new leading positions; when the current
rank is at least the target the shape is returned unchanged. -/
theorem add_padding_to_shape_spec (curr : List Nat) (target : Nat) :
    (add_padding_to_shape curr target).length = max target curr.length ∧
    add_padding_to_shape curr target
      = List.replicate (max target curr.length - curr.length) 1 ++ curr ∧
    (target ≤ curr.length → add_padding_to_shape curr target = curr) := by
  have hmax : (if target ≤ curr.length then curr.length else target) = max target curr.length := by
    rw [Nat.max_def]
  have hmain : add_padding_to_shape curr target
      = List.replicate (max target curr.length - curr.length) 1 ++ curr := by
    unfold add_padding_to_shape
    rw [hmax]
    have := add_padding_aux curr (max target curr.length) (by omega) curr.length (le_refl _)
    simpa using this
  refine ⟨?_, hmain, ?_⟩
  · rw [hmain]
    simp
  · intro hle
    rw [hmain]
    have : max target curr.length - curr.length = 0 := by omega
    rw [this]
    simp

/-- Claim C5 witness: padding (5,5,5) to 6 dimensions yields (1,1,1,5,5,5),
and a target of 1 leaves (2,3) unchanged. -/
theorem add_padding_to_shape_spec_witness :
    add_padding_to_shape [5, 5, 5] 6 = [1, 1, 1, 5, 5, 5] ∧
    add_padding_to_shape [2, 3] 1 = [2, 3] := by
  constructor
  · have h := (add_padding_to_shape_spec [5, 5, 5] 6).2.1
    simpa using h
  · exact (add_padding_to_shape_spec [2, 3] 1).2.2 (by norm_num)

theorem tsize_eval_w {t : Tensor} {dim : Int} {d : Nat} (hr : t.rank ≠ 0)
    (hw : maybe_wrap_dim dim t.rank = .ok d) : tsize t dim = .ok (tsizeAt t d) := by
  unfold tsize
  rw [if_neg hr, hw, ebind_ok]

/-- Claim C4: for every y with length 0 along the normalized integration
axis, both trapezoid overloads return an all-zero array whose shape is y's
shape with that axis removed, instead of raising an error. -/
theorem trapezoid_empty_axis_zeros :
    (∀ (y x : Tensor) (dim : Int) (d : Nat),
      maybe_wrap_dim dim y.rank = .ok d → d < y.rank → tsizeAt y d = 0 →
      EEqv (trapezoid y x dim) (.ok (zerosT (remAt d y.shape)))) ∧
    (∀ (y : Tensor) (dx : Scalar) (dim : Int) (d : Nat),
      maybe_wrap_dim dim y.rank = .ok d → d < y.rank → tsizeAt y d = 0 →
      EEqv (trapezoid_dx y dx dim) (.ok (zerosT (remAt d y.shape)))) := by
  constructor
  · intro y x dim d hw hd hz
    unfold trapezoid
    rw [hw, ebind_ok, tsize_eval (by omega), ebind_ok, if_pos hz]
    unfold zeros_like_except
    rw [maybe_wrap_dim_natcast hd, ebind_ok]
    exact EEqv_ok ⟨rfl, fun _ _ => rfl⟩
  · intro y dx dim d hw hd hz
    unfold trapezoid_dx
    rw [tsize_eval_w (by omega) hw, ebind_ok, if_pos hz]
    unfold zeros_like_except
    rw [hw, ebind_ok]
    exact EEqv_ok ⟨rfl, fun _ _ => rfl⟩

/-- Claim C4 witness: a (2,0,2) array integrated along axis 1 yields the
all-zero (2,2) array, for both overloads. -/
theorem trapezoid_empty_axis_zeros_witness :
    EEqv (trapezoid (ofL [2, 0, 2] []) (ofL [1] [0]) 1) (.ok (zerosT (remAt 1 [2, 0, 2]))) ∧
    EEqv (trapezoid_dx (ofL [2, 0, 2] []) (Scalar.b true) 1) (.ok (zerosT (remAt 1 [2, 0, 2]))) :=
  ⟨trapezoid_empty_axis_zeros.1 (ofL [2, 0, 2] []) (ofL [1] [0]) 1 1 rfl
      (by decide) (by decide),
    trapezoid_empty_axis_zeros.2 (ofL [2, 0, 2] []) (Scalar.b true) 1 1 rfl
      (by decide) (by decide)⟩

/-- Claim C10: for every non-boolean y with length 0 along the integration
axis and every real scalar spacing, cumulative_trapezoid does not raise: it
returns a tensor whose shape equals y's shape (length 0 along the axis, all
other axis lengths unchanged). -/
theorem cumulative_empty_axis_ok :
    ∀ (y : Tensor) (dx : Scalar) (dim : Int) (d : Nat),
      y.dtype ≠ DType.bool → dx.isComplex = false → dx.isBoolean = false →
      maybe_wrap_dim dim y.rank = .ok d → d < y.rank → tsizeAt y d = 0 →
      ∃ t, cumulative_trapezoid_dx y dx dim = .ok t ∧ t.shape = y.shape := by
  intro y dx dim d hb hc hbo hw hd hz
  have hr : y.rank ≠ 0 := by omega
  unfold cumulative_trapezoid_dx
  rw [if_neg hb, if_neg (by rw [hc, hbo]; simp)]
  unfold do_cumulative_trapezoid_uniform
  rw [tslice_left hr hw, ebind_ok, tslice_right_empty hr hw hz, ebind_ok]
  rw [tadd_same (by simp [sliceCore, hz]), ebind_ok]
  have hrank : (tsmulL (dx.toDouble / 2)
      (binCore (fun u v => u + v) (sliceCore y d 0 (tsizeAt y d - 1))
        (sliceCore y d 0 0) (sliceCore y d 0 (tsizeAt y d - 1)).shape)).rank = y.rank := by
    simp [tsmulL, binCore, Tensor.rank, sliceCore, length_setAt]
  rw [tcumsum_eval (by rw [hrank]; exact hr) (by rw [hrank]; exact hw)]
  refine ⟨_, rfl, ?_⟩
  show setAt d (tsizeAt y d - 1) y.shape = y.shape
  rw [hz]
  exact setAt_eq_self hz

/-- Claim C10 witness: cumulative_trapezoid on a length-0 1-d array with
dx = 1 succeeds and keeps the shape (0). -/
theorem cumulative_empty_axis_ok_witness :
    ∃ t, cumulative_trapezoid_dx (ofL [0] []) (Scalar.r 1) 0 = .ok t ∧
      t.shape = (ofL [0] []).shape :=
  cumulative_empty_axis_ok (ofL [0] []) (Scalar.r 1) 0 0 (by decide) rfl rfl rfl
    (by decide) rfl

theorem maybe_wrap_dim_sub {k r : Nat} (h : k < r) :
    maybe_wrap_dim ((k : Int) - (r : Int)) r = maybe_wrap_dim (k : Int) r := by
  rw [maybe_wrap_dim_natcast h]
  unfold maybe_wrap_dim
  rw [effRank_pos_eq (by omega), if_neg (by omega)]
  unfold wrapDimT
  rw [effRank_pos_eq (by omega), if_pos (by omega)]
  congr 1
  omega

/-- Claim C8: trapezoid is invariant to axis-index normalization: for a valid
axis k, calling with axis k and with axis k minus the rank produces identical
results, for both the coordinate-array and the scalar-spacing overload. -/
theorem trapezoid_axis_normalization :
    (∀ (y x : Tensor) (k : Nat), k < y.rank →
      trapezoid y x (k : Int) = trapezoid y x ((k : Int) - (y.rank : Int))) ∧
    (∀ (y : Tensor) (dx : Scalar) (k : Nat), k < y.rank →
      trapezoid_dx y dx (k : Int) = trapezoid_dx y dx ((k : Int) - (y.rank : Int))) := by
  constructor
  · intro y x k h
    unfold trapezoid
    rw [maybe_wrap_dim_sub h]
  · intro y dx k h
    unfold trapezoid_dx tsize zeros_like_except do_trapezoid_uniform tSum tselect
    rw [maybe_wrap_dim_sub h]

/-- Claim C8 witness: axis 0 and axis 0 minus the rank coincide on a concrete
length-2 input for both overloads. -/
theorem trapezoid_axis_normalization_witness :
    trapezoid (ofL [2] [3, 7]) (ofL [2] [0, 1]) ((0 : Nat) : Int)
      = trapezoid (ofL [2] [3, 7]) (ofL [2] [0, 1])
          (((0 : Nat) : Int) - ((ofL [2] [3, 7]).rank : Int)) ∧
    trapezoid_dx (ofL [2] [3, 7]) (Scalar.r 1) ((0 : Nat) : Int)
      = trapezoid_dx (ofL [2] [3, 7]) (Scalar.r 1)
          (((0 : Nat) : Int) - ((ofL [2] [3, 7]).rank : Int)) :=
  ⟨trapezoid_axis_normalization.1 (ofL [2] [3, 7]) (ofL [2] [0, 1]) 0 (by decide),
    trapezoid_axis_normalization.2 (ofL [2] [3, 7]) (Scalar.r 1) 0 (by decide)⟩

/-- Claim C3 counterexample: a boolean y whose integration axis has length 0
is not rejected: both trapezoid overloads return a result, because the
empty-axis guard runs before the bool check, contradicting the claim that a
TypeError is raised for all shapes and that no result is ever produced for
boolean inputs. -/
theorem bool_empty_axis_returns_result :
    (ofLB [0]).dtype = DType.bool ∧
    isOkB (trapezoid (ofLB [0]) (ofL [3] [0, 1, 2]) 0) = true ∧
    isOkB (trapezoid_dx (ofLB [0]) (Scalar.r 1) 0) = true := by
  decide

/-- Claim C3 (amended): boolean inputs fail with a TypeError-kind error and
produce no result, for trapezoid whenever the (normalized) integration axis
is non-empty, and for cumulative_trapezoid for every axis length; with an
empty axis, trapezoid instead returns the zero array without any type check. -/
theorem bool_input_rejected :
    (∀ (y x : Tensor) (dim : Int) (d : Nat),
      maybe_wrap_dim dim y.rank = .ok d → d < y.rank → tsizeAt y d ≠ 0 →
      (y.dtype = DType.bool ∨ x.dtype = DType.bool) →
      trapezoid y x dim = .error Err.typeErr) ∧
    (∀ (y : Tensor) (dx : Scalar) (dim : Int) (d : Nat),
      maybe_wrap_dim dim y.rank = .ok d → d < y.rank → tsizeAt y d ≠ 0 →
      y.dtype = DType.bool →
      trapezoid_dx y dx dim = .error Err.typeErr) ∧
    (∀ (y x : Tensor) (dim : Int) (d : Nat),
      maybe_wrap_dim dim y.rank = .ok d →
      (y.dtype = DType.bool ∨ x.dtype = DType.bool) →
      cumulative_trapezoid y x dim = .error Err.typeErr) ∧
    (∀ (y : Tensor) (dx : Scalar) (dim : Int),
      y.dtype = DType.bool →
      cumulative_trapezoid_dx y dx dim = .error Err.typeErr) := by
  refine ⟨?_, ?_, ?_, ?_⟩
  · intro y x dim d hw hd hn hbool
    unfold trapezoid
    rw [hw, ebind_ok, tsize_eval (by omega), ebind_ok, if_neg hn, if_pos hbool]
  · intro y dx dim d hw hd hn hb
    unfold trapezoid_dx
    rw [tsize_eval_w (by omega) hw, ebind_ok, if_neg hn, if_pos hb]
  · intro y x dim d hw hbool
    unfold cumulative_trapezoid
    rw [hw, ebind_ok, if_pos hbool]
  · intro y dx dim hb
    unfold cumulative_trapezoid_dx
    rw [if_pos hb]

/-- Claim C3 witness: a boolean length-2 y is rejected by trapezoid with
coordinates, and by cumulative_trapezoid with scalar spacing. -/
theorem bool_input_rejected_witness :
    trapezoid (ofLB [2]) (ofL [2] [0, 1]) 0 = .error Err.typeErr ∧
    cumulative_trapezoid_dx (ofLB [2]) (Scalar.r 1) 0 = .error Err.typeErr :=
  ⟨bool_input_rejected.1 (ofLB [2]) (ofL [2] [0, 1]) 0 0 rfl (by decide) (by decide)
      (by decide),
    bool_input_rejected.2.2.2 (ofLB [2]) (Scalar.r 1) 0 (by decide)⟩

theorem flat_ones {k : Nat} {is : List Nat} (h : IdxOk (List.replicate k 1) is) :
    flatIdx (List.replicate k 1) is = 0 := by
  induction k generalizing is with
  | zero =>
    cases is with
    | nil => rfl
    | cons i t => exact absurd h (by simp [IdxOk])
  | succ k ih =>
    cases is with
    | nil => rfl
    | cons i t =>
      rw [List.replicate_succ] at h
      obtain ⟨h1, h2⟩ := h
      have hi : i = 0 := by omega
      subst hi
      show 0 * (List.replicate k 1).prod + flatIdx (List.replicate k 1) t = 0
      rw [ih h2]
      simp

theorem flatIdx_onesSet {r d n : Nat} (hd : d < r) {idx : List Nat}
    (h : IdxOk (setAt d n (List.replicate r 1)) idx) :
    flatIdx (setAt d n (List.replicate r 1)) idx = getAt d idx := by
  induction r generalizing d idx with
  | zero => omega
  | succ r ih =>
    rw [List.replicate_succ] at h ⊢
    cases d with
    | zero =>
      cases idx with
      | nil => exact absurd h (by simp [IdxOk, setAt])
      | cons i t =>
        have h2 : IdxOk (List.replicate r 1) t := h.2
        show i * (List.replicate r 1).prod + flatIdx (List.replicate r 1) t = i
        rw [flat_ones h2, List.prod_replicate]
        simp
    | succ d =>
      cases idx with
      | nil => exact absurd h (by simp [IdxOk, setAt])
      | cons i t =>
        have h1 : i < 1 := h.1
        have h2 : IdxOk (setAt d n (List.replicate r 1)) t := h.2
        have hi : i = 0 := by omega
        subst hi
        show 0 * (setAt d n (List.replicate r 1)).prod
          + flatIdx (setAt d n (List.replicate r 1)) t = getAt d t
        rw [ih (by omega) h2]
        omega

theorem prod_setAt_ones {d r n : Nat} (hd : d < r) :
    (setAt d n (List.replicate r 1)).prod = n := by
  induction r generalizing d with
  | zero => omega
  | succ r ih =>
    rw [List.replicate_succ]
    cases d with
    | zero =>
      show (n :: List.replicate r 1).prod = n
      simp [List.prod_replicate]
    | succ d =>
      show (1 :: setAt d n (List.replicate r 1)).prod = n
      simp [ih (show d < r by omega)]

theorem unflat_single (m k : Nat) : unflat [m] k = [k] := by
  show (k / ([] : List Nat).prod) :: unflat [] (k % ([] : List Nat).prod) = [k]
  simp [unflat]

theorem ebind_error {α β : Type} (e : Err) (f : α → Except Err β) :
    ebind (.error e) f = .error e := rfl

theorem tsize_eval0 {t : Tensor} (h : 0 < t.rank) : tsize t 0 = .ok (tsizeAt t 0) :=
  @tsize_eval t 0 h

/-- Claim C6: a rank-1 coordinate array whose length differs from y's length
along the (normalized, non-empty) integration axis makes both trapezoid and
cumulative_trapezoid fail with a ShapeError-kind error; when the lengths
match, x is viewed at y's rank with its values placed along the integration
axis and length-1 placeholders on every other axis. -/
theorem rank1_x_length_check :
    (∀ (y x : Tensor) (dim : Int) (d m : Nat),
      maybe_wrap_dim dim y.rank = .ok d → d < y.rank → tsizeAt y d ≠ 0 →
      y.dtype ≠ DType.bool → x.dtype ≠ DType.bool →
      x.shape = [m] → m ≠ tsizeAt y d →
      trapezoid y x dim = .error Err.shapeErr ∧
      cumulative_trapezoid y x dim = .error Err.shapeErr) ∧
    (∀ (y x : Tensor) (d : Nat),
      d < y.rank → x.shape = [tsizeAt y d] →
      EEqv (x_view_for y x d)
        (.ok ⟨setAt d (tsizeAt y d) (List.replicate y.rank 1), x.dtype,
          fun idx => x.data [getAt d idx]⟩)) := by
  constructor
  · intro y x dim d m hw hd hn hyb hxb hxs hm
    have hx1 : x.rank = 1 := by simp [Tensor.rank, hxs]
    have hx0 : (0 : Nat) < x.rank := by omega
    have hxsz : tsizeAt x 0 = m := by rw [tsizeAt, hxs]; rfl
    have hsp : spacing_dx y x d = .error Err.shapeErr := by
      unfold spacing_dx x_view_for
      rw [if_pos hx1, tsize_eval0 hx0, ebind_ok, hxsz, tsize_eval hd, ebind_ok,
        if_pos hm, ebind_error]
    constructor
    · unfold trapezoid
      rw [hw, ebind_ok, tsize_eval (by omega), ebind_ok, if_neg hn,
        if_neg (by simp [hyb, hxb]), hsp, ebind_error]
    · unfold cumulative_trapezoid
      rw [hw, ebind_ok, if_neg (by simp [hyb, hxb]), hsp, ebind_error]
  · intro y x d hd hxs
    have hx1 : x.rank = 1 := by simp [Tensor.rank, hxs]
    have hx0 : (0 : Nat) < x.rank := by omega
    have hxsz : tsizeAt x 0 = tsizeAt y d := by rw [tsizeAt, hxs]; rfl
    unfold x_view_for
    rw [if_pos hx1, tsize_eval0 hx0, ebind_ok, hxsz, tsize_eval hd, ebind_ok,
      if_neg (by omega)]
    have hprod : (setAt d (tsizeAt y d) (List.replicate y.rank 1)).prod = x.shape.prod := by
      rw [prod_setAt_ones hd, hxs]
      simp
    rw [tview_ok hprod]
    refine EEqv_ok ⟨rfl, fun idx hm => ?_⟩
    have hok := mem_allIdx.mp hm
    show x.data (unflat x.shape (flatIdx (setAt d (tsizeAt y d) (List.replicate y.rank 1)) idx))
      = x.data [getAt d idx]
    rw [flatIdx_onesSet hd hok, hxs, unflat_single]

/-- Claim C6 witness: a length-2 x against a length-3 axis is rejected with a
shape error by both entry points, and a matching length-3 x is viewed as
shape (3) with its values along axis 0. -/
theorem rank1_x_length_check_witness :
    (trapezoid (ofL [3] [1, 2, 3]) (ofL [2] [0, 1]) 0 = .error Err.shapeErr ∧
      cumulative_trapezoid (ofL [3] [1, 2, 3]) (ofL [2] [0, 1]) 0 = .error Err.shapeErr) ∧
    EEqv (x_view_for (ofL [2, 2] [1, 2, 3, 4]) (ofL [2] [0, 1]) 1)
      (.ok ⟨setAt 1 (tsizeAt (ofL [2, 2] [1, 2, 3, 4]) 1)
          (List.replicate (ofL [2, 2] [1, 2, 3, 4]).rank 1),
        (ofL [2] [0, 1]).dtype, fun idx => (ofL [2] [0, 1]).data [getAt 1 idx]⟩) :=
  ⟨rank1_x_length_check.1 (ofL [3] [1, 2, 3]) (ofL [2] [0, 1]) 0 0 2 rfl (by decide)
      (by decide) (by decide) (by decide) rfl (by decide),
    rank1_x_length_check.2 (ofL [2, 2] [1, 2, 3, 4]) (ofL [2] [0, 1]) 1 (by decide) rfl⟩

theorem IdxOk_getAt_lt {s idx : List Nat} (h : IdxOk s idx) {d : Nat} (hd : d < s.length) :
    getAt d idx < getAt d s := by
  induction s generalizing idx d with
  | nil => simp at hd
  | cons n ns ih =>
    cases idx with
    | nil => exact absurd h (by simp [IdxOk])
    | cons i is =>
      cases d with
      | zero => exact h.1
      | succ d => exact ih h.2 (by simpa using hd)

/-- Claim C7: in the non-uniform path the per-interval spacing dx is the
element-wise difference between the viewed x sliced from index 1 and the
viewed x sliced up to the second-to-last index along the integration axis,
and it has one fewer entry along that axis than the viewed x. -/
theorem spacing_dx_spec :
    ∀ (y x xv : Tensor) (d : Nat),
      x_view_for y x d = .ok xv → d < xv.rank →
      EEqv (spacing_dx y x d) (.ok (diffT xv d)) ∧
      okSizeAt (spacing_dx y x d) d = tsizeAt xv d - 1 := by
  intro y x xv d hv hd
  have hr : xv.rank ≠ 0 := by omega
  have hw := maybe_wrap_dim_natcast hd
  have hd2 : d < xv.shape.length := hd
  by_cases hm : tsizeAt xv d = 0
  · have heq : spacing_dx y x d
        = .ok (binCore (fun u v => u - v) (sliceCore xv d 0 0)
            (sliceCore xv d 0 (tsizeAt xv d - 1)) (setAt d 0 xv.shape)) := by
      unfold spacing_dx
      rw [hv, ebind_ok, tslice_left hr hw, ebind_ok, tslice_right_empty hr hw hm, ebind_ok,
        tsub_same (by simp [sliceCore, hm])]
      rfl
    constructor
    · rw [heq]
      refine EEqv_ok ⟨?_, ?_⟩
      · show setAt d 0 xv.shape = setAt d (tsizeAt xv d - 1) xv.shape
        rw [hm]
      · intro idx hmem
        have hok : IdxOk (setAt d 0 xv.shape) idx := mem_allIdx.mp hmem
        have hlt := IdxOk_getAt_lt hok (show d < (setAt d 0 xv.shape).length by
          rw [length_setAt]; exact hd2)
        rw [getAt_setAt (show d < xv.shape.length from hd2)] at hlt
        omega
    · rw [heq]
      show getAt d (setAt d 0 xv.shape) = tsizeAt xv d - 1
      rw [getAt_setAt hd2, hm]
  · have heq : spacing_dx y x d
        = .ok (binCore (fun u v => u - v) (sliceCore xv d 1 (tsizeAt xv d - 1))
            (sliceCore xv d 0 (tsizeAt xv d - 1)) (setAt d (tsizeAt xv d - 1) xv.shape)) := by
      unfold spacing_dx
      rw [hv, ebind_ok, tslice_left hr hw, ebind_ok, tslice_right hr hw (by omega), ebind_ok,
        tsub_same (show (sliceCore xv d 0 (tsizeAt xv d - 1)).shape
          = (sliceCore xv d 1 (tsizeAt xv d - 1)).shape from rfl)]
      rfl
    constructor
    · rw [heq]
      refine EEqv_ok ⟨rfl, fun idx hmem => ?_⟩
      have hok : IdxOk (setAt d (tsizeAt xv d - 1) xv.shape) idx := mem_allIdx.mp hmem
      rw [binCore_data_eq
        (show (sliceCore xv d 1 (tsizeAt xv d - 1)).shape
          = setAt d (tsizeAt xv d - 1) xv.shape from rfl)
        (show (sliceCore xv d 0 (tsizeAt xv d - 1)).shape
          = setAt d (tsizeAt xv d - 1) xv.shape from rfl) hok]
      show xv.data (setAt d (getAt d idx + 1) idx) - xv.data (setAt d (getAt d idx + 0) idx) = _
      simp only [Nat.add_zero]
      rfl
    · rw [heq]
      show getAt d (setAt d (tsizeAt xv d - 1) xv.shape) = tsizeAt xv d - 1
      rw [getAt_setAt hd2]

/-- Claim C7 witness: a rank-2 coordinate array used as-is yields the
difference tensor of consecutive samples with one fewer entry along axis 1. -/
theorem spacing_dx_spec_witness :
    EEqv (spacing_dx (ofL [1, 3] [1, 2, 3]) (ofL [1, 3] [0, 2, 4]) 1)
      (.ok (diffT (ofL [1, 3] [0, 2, 4]) 1)) ∧
    okSizeAt (spacing_dx (ofL [1, 3] [1, 2, 3]) (ofL [1, 3] [0, 2, 4]) 1) 1
      = tsizeAt (ofL [1, 3] [0, 2, 4]) 1 - 1 := by
  have hv : x_view_for (ofL [1, 3] [1, 2, 3]) (ofL [1, 3] [0, 2, 4]) 1
      = .ok (ofL [1, 3] [0, 2, 4]) := rfl
  exact spacing_dx_spec (ofL [1, 3] [1, 2, 3]) (ofL [1, 3] [0, 2, 4]) (ofL [1, 3] [0, 2, 4]) 1 hv
    (by decide)

theorem binCore_shape (f : ℚ → ℚ → ℚ) (a b : Tensor) (sh : List Nat) :
    (binCore f a b sh).shape = sh := rfl

theorem binCore_data (f : ℚ → ℚ → ℚ) (a b : Tensor) (sh idx : List Nat) :
    (binCore f a b sh).data idx
      = f (a.data (bIdxOf a.shape idx)) (b.data (bIdxOf b.shape idx)) := rfl

theorem sliceCore_shape (t : Tensor) (d s len : Nat) :
    (sliceCore t d s len).shape = setAt d len t.shape := rfl

theorem sliceCore_data (t : Tensor) (d s len : Nat) (idx : List Nat) :
    (sliceCore t d s len).data idx = t.data (setAt d (getAt d idx + s) idx) := rfl

theorem selectCore_shape (t : Tensor) (d j : Nat) :
    (selectCore t d j).shape = remAt d t.shape := rfl

theorem selectCore_data (t : Tensor) (d j : Nat) (idx : List Nat) :
    (selectCore t d j).data idx = t.data (insAt d j idx) := rfl

theorem sumCore_shape (t : Tensor) (d : Nat) : (sumCore t d).shape = remAt d t.shape := rfl

theorem sumCore_data (t : Tensor) (d : Nat) (idx : List Nat) :
    (sumCore t d).data idx
      = ((List.range (tsizeAt t d)).map fun i => t.data (insAt d i idx)).sum := rfl

theorem cumsumCore_shape (t : Tensor) (d : Nat) : (cumsumCore t d).shape = t.shape := rfl

theorem cumsumCore_data (t : Tensor) (d : Nat) (idx : List Nat) :
    (cumsumCore t d).data idx
      = ((List.range (getAt d idx + 1)).map fun i => t.data (setAt d i idx)).sum := rfl

theorem tsmul_shape (t : Tensor) (c : ℚ) : (tsmul t c).shape = t.shape := rfl

theorem tsmul_data (t : Tensor) (c : ℚ) (idx : List Nat) :
    (tsmul t c).data idx = t.data idx * c := rfl

theorem tsmulL_shape (c : ℚ) (t : Tensor) : (tsmulL c t).shape = t.shape := rfl

theorem tsmulL_data (c : ℚ) (t : Tensor) (idx : List Nat) :
    (tsmulL c t).data idx = c * t.data idx := rfl

theorem tdivs_shape (t : Tensor) (c : ℚ) : (tdivs t c).shape = t.shape := rfl

theorem tdivs_data (t : Tensor) (c : ℚ) (idx : List Nat) :
    (tdivs t c).data idx = t.data idx / c := rfl

theorem fullT_shape (sh : List Nat) (c : ℚ) : (fullT sh c).shape = sh := rfl

theorem fullT_data (sh : List Nat) (c : ℚ) (idx : List Nat) : (fullT sh c).data idx = c := rfl

theorem tsizeAt_eq (t : Tensor) (d : Nat) : tsizeAt t d = getAt d t.shape := rfl

theorem do_trapezoid_uniform_eval {y : Tensor} {h : ℚ} {dim : Int} {d : Nat}
    (hw : maybe_wrap_dim dim y.rank = .ok d) (hd : d < y.rank) (hn : 1 ≤ tsizeAt y d) :
    ∃ T, do_trapezoid_uniform y h dim = .ok T ∧ T.shape = remAt d y.shape ∧
      ∀ idx, IdxOk (remAt d y.shape) idx →
        T.data idx = (((List.range (tsizeAt y d)).map fun i => y.data (insAt d i idx)).sum
          - (y.data (insAt d 0 idx) + y.data (insAt d (tsizeAt y d - 1) idx)) * (1/2)) * h := by
  have hr : y.rank ≠ 0 := by omega
  unfold do_trapezoid_uniform
  rw [tSum_eval hr hw, ebind_ok, tselect_zero hr hw hn, ebind_ok, tselect_last hr hw hn,
    ebind_ok,
    tadd_same (show (selectCore y d (tsizeAt y d - 1)).shape = (selectCore y d 0).shape
      from rfl), ebind_ok,
    tsub_same (show (tsmul (binCore (fun u v => u + v) (selectCore y d 0)
        (selectCore y d (tsizeAt y d - 1)) (selectCore y d 0).shape) (1/2)).shape
      = (sumCore y d).shape from rfl), ebind_ok]
  refine ⟨_, rfl, rfl, fun idx hok => ?_⟩
  have hok1 : IdxOk (remAt d y.shape) idx := hok
  simp only [tsmul_data, binCore_data, sumCore_data, selectCore_data, tsmul_shape,
    binCore_shape, sumCore_shape, selectCore_shape, bIdxOf_self hok1]

theorem do_trapezoid_full_eval {y : Tensor} {h : ℚ} {dim : Int} {d : Nat}
    (hw : maybe_wrap_dim dim y.rank = .ok d) (hd : d < y.rank) (hn : 1 ≤ tsizeAt y d) :
    ∃ T, do_trapezoid y (fullT (setAt d (tsizeAt y d - 1) y.shape) h) dim = .ok T ∧
      T.shape = remAt d (setAt d (tsizeAt y d - 1) y.shape) ∧
      ∀ idx, IdxOk (remAt d y.shape) idx →
        T.data idx = ((List.range (tsizeAt y d - 1)).map
          fun i => (y.data (insAt d i idx) + y.data (insAt d (i + 1) idx)) * h).sum / 2 := by
  have hr : y.rank ≠ 0 := by omega
  have hd2 : d < y.shape.length := hd
  unfold do_trapezoid
  rw [tslice_left hr hw, ebind_ok, tslice_right hr hw hn, ebind_ok,
    tadd_same (show (sliceCore y d 1 (tsizeAt y d - 1)).shape
      = (sliceCore y d 0 (tsizeAt y d - 1)).shape from rfl), ebind_ok,
    tmul_same (show (fullT (setAt d (tsizeAt y d - 1) y.shape) h).shape
      = (binCore (fun u v => u + v) (sliceCore y d 0 (tsizeAt y d - 1))
          (sliceCore y d 1 (tsizeAt y d - 1))
          (sliceCore y d 0 (tsizeAt y d - 1)).shape).shape from rfl), ebind_ok]
  have hPrank : (binCore (fun u v => u * v)
      (binCore (fun u v => u + v) (sliceCore y d 0 (tsizeAt y d - 1))
        (sliceCore y d 1 (tsizeAt y d - 1)) (sliceCore y d 0 (tsizeAt y d - 1)).shape)
      (fullT (setAt d (tsizeAt y d - 1) y.shape) h)
      (binCore (fun u v => u + v) (sliceCore y d 0 (tsizeAt y d - 1))
        (sliceCore y d 1 (tsizeAt y d - 1)) (sliceCore y d 0 (tsizeAt y d - 1)).shape).shape).rank
      = y.rank := by
    show (setAt d (tsizeAt y d - 1) y.shape).length = y.shape.length
    exact length_setAt d (tsizeAt y d - 1) y.shape
  rw [tSum_eval (by rw [hPrank]; exact hr) (by rw [hPrank]; exact hw), ebind_ok]
  refine ⟨_, rfl, rfl, fun idx hok => ?_⟩
  have hlen : idx.length = y.shape.length - 1 := by
    rw [IdxOk_length hok, length_remAt hd2]
  have hdle : d ≤ idx.length := by omega
  simp only [tdivs_data, sumCore_data, tsizeAt_eq, binCore_shape, sliceCore_shape,
    getAt_setAt hd2]
  congr 1
  apply sum_congr_range
  intro i hi
  have hokj : IdxOk (setAt d (getAt d y.shape - 1) y.shape) (insAt d i idx) :=
    IdxOk_setAt_insAt hd2 hok hi
  simp only [binCore_data, binCore_shape, sliceCore_shape, fullT_shape, sliceCore_data,
    fullT_data, bIdxOf_self hokj, getAt_insAt hdle, setAt_insAt hdle, Nat.add_zero]

/-- Claim C2 counterexample: with an empty integration axis the simplified
uniform formula fails (selecting the first element of an empty axis) while
the general formula applied to the empty spacing array returns zeros, so the
two formulas do not agree for every array y. -/
theorem uniform_general_differ_empty :
    ¬ EEqv (do_trapezoid_uniform (ofL [0] []) 1 0)
        (do_trapezoid (ofL [0] []) (fullT (setAt 0 (tsizeAt (ofL [0] []) 0 - 1) [0]) 1) 0) := by
  decide

/-- Claim C2 (amended): for every y with at least one sample along the valid
integration axis and every scalar spacing h, the simplified uniform-spacing
formula equals the general per-interval formula evaluated on the spacing
array of the interval shape filled with h. -/
theorem uniform_eq_general_do_trapezoid :
    ∀ (y : Tensor) (h : ℚ) (dim : Int) (d : Nat),
      maybe_wrap_dim dim y.rank = .ok d → d < y.rank → 1 ≤ tsizeAt y d →
      EEqv (do_trapezoid_uniform y h dim)
        (do_trapezoid y (fullT (setAt d (tsizeAt y d - 1) y.shape) h) dim) := by
  intro y h dim d hw hd hn
  obtain ⟨U, hU, hUs, hUd⟩ := do_trapezoid_uniform_eval hw hd hn
  obtain ⟨T, hT, hTs, hTd⟩ := do_trapezoid_full_eval hw hd hn
  rw [hU, hT]
  refine EEqv_ok ⟨by rw [hUs, hTs, remAt_setAt], fun idx hmem => ?_⟩
  have hok := mem_allIdx.mp hmem
  rw [hUs] at hok
  rw [hUd idx hok, hTd idx hok,
    sum_mul_right (fun i => y.data (insAt d i idx) + y.data (insAt d (i + 1) idx)) h
      (tsizeAt y d - 1),
    sum_consec (fun i => y.data (insAt d i idx)) (tsizeAt y d) hn]
  ring

/-- Claim C2 witness: on y = (1, 2, 3) with h = 2 the uniform formula and the
filled-spacing general formula agree. -/
theorem uniform_eq_general_witness :
    EEqv (do_trapezoid_uniform (ofL [3] [1, 2, 3]) 2 0)
      (do_trapezoid (ofL [3] [1, 2, 3])
        (fullT (setAt 0 (tsizeAt (ofL [3] [1, 2, 3]) 0 - 1) (ofL [3] [1, 2, 3]).shape) 2) 0) :=
  uniform_eq_general_do_trapezoid (ofL [3] [1, 2, 3]) 2 0 0 rfl (by decide) (by decide)

theorem Tensor.eqv_trans {a b c : Tensor} (h1 : a.Eqv b) (h2 : b.Eqv c) : a.Eqv c :=
  ⟨h1.1.trans h2.1, fun idx hm => (h1.2 idx hm).trans (h2.2 idx (h1.1 ▸ hm))⟩

theorem tsize_ok_inv {t : Tensor} {dim : Int} {n : Nat} (h : tsize t dim = .ok n) :
    t.rank ≠ 0 ∧ maybe_wrap_dim dim t.rank = .ok (wrapDimT dim t.rank)
      ∧ n = tsizeAt t (wrapDimT dim t.rank) := by
  unfold tsize at h
  split_ifs at h with h0
  obtain ⟨d, hw, hval⟩ := ebind_eq_ok h
  have hde := maybe_wrap_dim_eq hw
  injection hval with hv
  exact ⟨h0, by rw [← hde]; exact hw, by rw [← hv, hde]⟩

theorem do_trap_cum_rel {y dxT : Tensor} {d : Nat} {t c : Tensor}
    (ht : do_trapezoid y dxT (d : Int) = .ok t)
    (hc : do_cumulative_trapezoid y dxT (d : Int) = .ok c)
    (hm : 1 ≤ tsizeAt c d) :
    EEqv (tselect c (d : Int) (-1)) (.ok t) := by
  unfold do_trapezoid at ht
  unfold do_cumulative_trapezoid at hc
  obtain ⟨l, hl, ht⟩ := ebind_eq_ok ht
  rw [hl, ebind_ok] at hc
  obtain ⟨r, hrr, ht⟩ := ebind_eq_ok ht
  rw [hrr, ebind_ok] at hc
  obtain ⟨lr, hlr, ht⟩ := ebind_eq_ok ht
  rw [hlr, ebind_ok] at hc
  obtain ⟨p, hp, ht⟩ := ebind_eq_ok ht
  rw [hp, ebind_ok] at hc
  obtain ⟨s, hs, ht⟩ := ebind_eq_ok ht
  injection ht with ht
  obtain ⟨cs, hcs, hc⟩ := ebind_eq_ok hc
  injection hc with hc
  unfold tSum at hs
  obtain ⟨dd, hwp, hs2⟩ := ebind_eq_ok hs
  injection hs2 with hs3
  unfold tcumsum at hcs
  rw [hwp, ebind_ok] at hcs
  injection hcs with hcs3
  have hdd : dd = d := by rw [maybe_wrap_dim_eq hwp, wrapDimT_natcast]
  rw [hdd] at hwp hs3 hcs3
  by_cases hp0 : p.rank = 0
  · rw [if_pos hp0] at hs3 hcs3
    exfalso
    subst hcs3 hc hs3 ht
    have hps : p.shape = [] := List.length_eq_zero.mp hp0
    have hz : tsizeAt (tdivs p 2) d = 0 := by
      show getAt d p.shape = 0
      rw [hps]
      cases d <;> rfl
    omega
  · rw [if_neg hp0] at hs3 hcs3
    subst hcs3 hc hs3 ht
    have hdp : d < p.rank := maybe_wrap_dim_lt hwp hp0
    rw [tselect_last (show (tdivs (cumsumCore p d) 2).rank ≠ 0 from hp0)
      (maybe_wrap_dim_natcast (show d < (tdivs (cumsumCore p d) 2).rank from hdp))
      (show 1 ≤ tsizeAt (tdivs (cumsumCore p d) 2) d from hm)]
    refine EEqv_ok ?_
    rw [selectCore_tdivs]
    exact tdivs_eqv (select_cumsum_last hdp hm) 2

theorem sum_half_lr_data {y : Tensor} {d : Nat} (v : ℚ) (hd2 : d < y.shape.length)
    (hn : 1 ≤ tsizeAt y d) {idx : List Nat} (hok : IdxOk (remAt d y.shape) idx) :
    (sumCore (tsmulL (v / 2) (binCore (fun u w => u + w)
        (sliceCore y d 0 (tsizeAt y d - 1)) (sliceCore y d 1 (tsizeAt y d - 1))
        (sliceCore y d 0 (tsizeAt y d - 1)).shape)) d).data idx
      = (((List.range (tsizeAt y d)).map fun i => y.data (insAt d i idx)).sum
        - (y.data (insAt d 0 idx) + y.data (insAt d (tsizeAt y d - 1) idx)) * (1/2)) * v := by
  have hlen : idx.length = y.shape.length - 1 := by
    rw [IdxOk_length hok, length_remAt hd2]
  have hley : d ≤ idx.length := by omega
  have hqsz : tsizeAt (tsmulL (v / 2) (binCore (fun u w => u + w)
      (sliceCore y d 0 (tsizeAt y d - 1)) (sliceCore y d 1 (tsizeAt y d - 1))
      (sliceCore y d 0 (tsizeAt y d - 1)).shape)) d = tsizeAt y d - 1 :=
    getAt_setAt hd2 _
  rw [sumCore_data, hqsz]
  have hstep : ∀ i, i < tsizeAt y d - 1 →
      (tsmulL (v / 2) (binCore (fun u w => u + w)
        (sliceCore y d 0 (tsizeAt y d - 1)) (sliceCore y d 1 (tsizeAt y d - 1))
        (sliceCore y d 0 (tsizeAt y d - 1)).shape)).data (insAt d i idx)
      = v / 2 * (y.data (insAt d i idx) + y.data (insAt d (i + 1) idx)) := by
    intro i hi
    have hokj : IdxOk (setAt d (tsizeAt y d - 1) y.shape) (insAt d i idx) :=
      IdxOk_setAt_insAt hd2 hok hi
    simp only [tsmulL_data, binCore_data, binCore_shape, sliceCore_shape, sliceCore_data,
      bIdxOf_self hokj, getAt_insAt hley, setAt_insAt hley, Nat.add_zero]
  rw [sum_congr_range _ hstep,
    sum_mul_left (fun i => y.data (insAt d i idx) + y.data (insAt d (i + 1) idx)) (v / 2)
      (tsizeAt y d - 1),
    sum_consec (fun i => y.data (insAt d i idx)) (tsizeAt y d) hn]
  ring

theorem do_trap_cum_rel_uniform {y : Tensor} {v : ℚ} {dim : Int} {d : Nat} {t c : Tensor}
    (hw : maybe_wrap_dim dim y.rank = .ok d) (hd : d < y.rank) (hn : 2 ≤ tsizeAt y d)
    (ht : do_trapezoid_uniform y v dim = .ok t)
    (hc : do_cumulative_trapezoid_uniform y v dim = .ok c) :
    EEqv (tselect c ((d : Nat) : Int) (-1)) (.ok t) := by
  have hr : y.rank ≠ 0 := by omega
  have hd2 : d < y.shape.length := hd
  obtain ⟨U, hU, hUs, hUd⟩ := do_trapezoid_uniform_eval hw hd (by omega)
  rw [hU] at ht
  injection ht with ht
  subst ht
  unfold do_cumulative_trapezoid_uniform at hc
  rw [tslice_left hr hw, ebind_ok, tslice_right hr hw (by omega), ebind_ok,
    tadd_same (show (sliceCore y d 1 (tsizeAt y d - 1)).shape
      = (sliceCore y d 0 (tsizeAt y d - 1)).shape from rfl), ebind_ok] at hc
  have hqr : (tsmulL (v / 2) (binCore (fun u w => u + w)
      (sliceCore y d 0 (tsizeAt y d - 1)) (sliceCore y d 1 (tsizeAt y d - 1))
      (sliceCore y d 0 (tsizeAt y d - 1)).shape)).rank = y.rank :=
    length_setAt d (tsizeAt y d - 1) y.shape
  rw [tcumsum_eval (by rw [hqr]; exact hr) (by rw [hqr]; exact hw)] at hc
  injection hc with hc
  subst hc
  have hqn : 1 ≤ tsizeAt (tsmulL (v / 2) (binCore (fun u w => u + w)
      (sliceCore y d 0 (tsizeAt y d - 1)) (sliceCore y d 1 (tsizeAt y d - 1))
      (sliceCore y d 0 (tsizeAt y d - 1)).shape)) d := by
    rw [show tsizeAt (tsmulL (v / 2) (binCore (fun u w => u + w)
      (sliceCore y d 0 (tsizeAt y d - 1)) (sliceCore y d 1 (tsizeAt y d - 1))
      (sliceCore y d 0 (tsizeAt y d - 1)).shape)) d = tsizeAt y d - 1 from
        getAt_setAt hd2 _]
    omega
  have hqlt : d < (tsmulL (v / 2) (binCore (fun u w => u + w)
      (sliceCore y d 0 (tsizeAt y d - 1)) (sliceCore y d 1 (tsizeAt y d - 1))
      (sliceCore y d 0 (tsizeAt y d - 1)).shape)).rank := by
    rw [hqr]
    exact hd
  rw [tselect_last (show (cumsumCore (tsmulL (v / 2) (binCore (fun u w => u + w)
      (sliceCore y d 0 (tsizeAt y d - 1)) (sliceCore y d 1 (tsizeAt y d - 1))
      (sliceCore y d 0 (tsizeAt y d - 1)).shape)) d).rank ≠ 0 by
        rw [show (cumsumCore (tsmulL (v / 2) (binCore (fun u w => u + w)
          (sliceCore y d 0 (tsizeAt y d - 1)) (sliceCore y d 1 (tsizeAt y d - 1))
          (sliceCore y d 0 (tsizeAt y d - 1)).shape)) d).rank = y.rank from hqr]
        exact hr)
    (maybe_wrap_dim_natcast (show d < (cumsumCore (tsmulL (v / 2) (binCore (fun u w => u + w)
      (sliceCore y d 0 (tsizeAt y d - 1)) (sliceCore y d 1 (tsizeAt y d - 1))
      (sliceCore y d 0 (tsizeAt y d - 1)).shape)) d).rank by
        rw [show (cumsumCore (tsmulL (v / 2) (binCore (fun u w => u + w)
          (sliceCore y d 0 (tsizeAt y d - 1)) (sliceCore y d 1 (tsizeAt y d - 1))
          (sliceCore y d 0 (tsizeAt y d - 1)).shape)) d).rank = y.rank from hqr]
        exact hd))
    (show 1 ≤ tsizeAt (cumsumCore (tsmulL (v / 2) (binCore (fun u w => u + w)
      (sliceCore y d 0 (tsizeAt y d - 1)) (sliceCore y d 1 (tsizeAt y d - 1))
      (sliceCore y d 0 (tsizeAt y d - 1)).shape)) d) d from hqn)]
  refine EEqv_ok (Tensor.eqv_trans (select_cumsum_last hqlt hqn) ?_)
  have hshape : (sumCore (tsmulL (v / 2) (binCore (fun u w => u + w)
      (sliceCore y d 0 (tsizeAt y d - 1)) (sliceCore y d 1 (tsizeAt y d - 1))
      (sliceCore y d 0 (tsizeAt y d - 1)).shape)) d).shape = U.shape := by
    show remAt d (setAt d (tsizeAt y d - 1) y.shape) = U.shape
    rw [remAt_setAt, hUs]
  apply Tensor.eqv_of hshape
  intro idx hok
  have hok2 : IdxOk (remAt d y.shape) idx := by
    have h0 : (sumCore (tsmulL (v / 2) (binCore (fun u w => u + w)
        (sliceCore y d 0 (tsizeAt y d - 1)) (sliceCore y d 1 (tsizeAt y d - 1))
        (sliceCore y d 0 (tsizeAt y d - 1)).shape)) d).shape = remAt d y.shape := by
      show remAt d (setAt d (tsizeAt y d - 1) y.shape) = remAt d y.shape
      rw [remAt_setAt]
    rw [h0] at hok
    exact hok
  rw [sum_half_lr_data v hd2 (by omega) hok2, hUd idx hok2]

/-- Claim C1 (amended): whenever trapezoid succeeds, the integration axis has
at least two samples, and the cumulative result is non-empty along the
(wrapped) integration axis, the last entry along that axis of
cumulative_trapezoid equals trapezoid on the same inputs, for both the
coordinate-array and the scalar-spacing overloads. -/
theorem cumulative_last_eq_trapezoid :
    (∀ (y x : Tensor) (dim : Int),
      isOkB (trapezoid y x dim) = true →
      2 ≤ tsizeAt y (wrapDimT dim y.rank) →
      1 ≤ okSizeAt (cumulative_trapezoid y x dim) (wrapDimT dim y.rank) →
      EEqv (lastOfCum y x dim) (trapezoid y x dim)) ∧
    (∀ (y : Tensor) (dx : Scalar) (dim : Int),
      isOkB (trapezoid_dx y dx dim) = true →
      2 ≤ tsizeAt y (wrapDimT dim y.rank) →
      1 ≤ okSizeAt (cumulative_trapezoid_dx y dx dim) (wrapDimT dim y.rank) →
      EEqv (lastOfCum_dx y dx dim) (trapezoid_dx y dx dim)) := by
  constructor
  · intro y x dim h1 h2 h3
    cases e1 : trapezoid y x dim with
    | error e =>
      rw [e1] at h1
      exact absurd h1 (by simp [isOkB])
    | ok t =>
    cases e2 : cumulative_trapezoid y x dim with
    | error e =>
      rw [e2] at h3
      exact absurd h3 (by simp [okSizeAt])
    | ok c =>
    have e1' := e1
    unfold trapezoid at e1'
    obtain ⟨d, hw, e1'⟩ := ebind_eq_ok e1'
    have hdw : d = wrapDimT dim y.rank := maybe_wrap_dim_eq hw
    rw [← hdw] at h2 h3
    obtain ⟨n, hsz, e1'⟩ := ebind_eq_ok e1'
    obtain ⟨hr, -, hn⟩ := tsize_ok_inv hsz
    rw [wrapDimT_natcast] at hn
    rw [if_neg (by omega)] at e1'
    by_cases hb : y.dtype = DType.bool ∨ x.dtype = DType.bool
    · rw [if_pos hb] at e1'
      exact absurd e1' (by simp)
    rw [if_neg hb] at e1'
    obtain ⟨dxT, hdx, ht⟩ := ebind_eq_ok e1'
    have e2' := e2
    unfold cumulative_trapezoid at e2'
    rw [hw, ebind_ok, if_neg hb, hdx, ebind_ok] at e2'
    have hm : 1 ≤ tsizeAt c d := by
      rw [e2] at h3
      exact h3
    unfold lastOfCum
    rw [e2, ebind_ok, ← hdw]
    exact do_trap_cum_rel ht e2' hm
  · intro y dx dim h1 h2 h3
    cases e1 : trapezoid_dx y dx dim with
    | error e =>
      rw [e1] at h1
      exact absurd h1 (by simp [isOkB])
    | ok t =>
    cases e2 : cumulative_trapezoid_dx y dx dim with
    | error e =>
      rw [e2] at h3
      exact absurd h3 (by simp [okSizeAt])
    | ok c =>
    have e1' := e1
    unfold trapezoid_dx at e1'
    obtain ⟨n, hsz, e1'⟩ := ebind_eq_ok e1'
    obtain ⟨hr, hw, hn⟩ := tsize_ok_inv hsz
    have hd : wrapDimT dim y.rank < y.rank := maybe_wrap_dim_lt hw hr
    rw [if_neg (by omega)] at e1'
    by_cases hb : y.dtype = DType.bool
    · rw [if_pos hb] at e1'
      exact absurd e1' (by simp)
    rw [if_neg hb] at e1'
    by_cases hcx : dx.isComplex || dx.isBoolean
    · rw [if_pos hcx] at e1'
      exact absurd e1' (by simp)
    rw [if_neg hcx] at e1'
    have e2' := e2
    unfold cumulative_trapezoid_dx at e2'
    rw [if_neg hb, if_neg hcx] at e2'
    unfold lastOfCum_dx
    rw [e2, ebind_ok]
    exact do_trap_cum_rel_uniform hw hd h2 e1' e2'

/-- Claim C1 counterexample: for y = (5), a single sample (so the integration
axis is non-empty) with dx = 1, trapezoid succeeds and returns 0, while the
cumulative result is empty along the axis, so its last element does not
exist: the stated invariant fails at axis length 1. -/
theorem cumulative_last_missing_len_one :
    isOkB (trapezoid_dx (ofL [1] [5]) (Scalar.r 1) 0) = true ∧
    isOkB (cumulative_trapezoid_dx (ofL [1] [5]) (Scalar.r 1) 0) = true ∧
    1 ≤ tsizeAt (ofL [1] [5]) (wrapDimT 0 (ofL [1] [5]).rank) ∧
    ¬ EEqv (lastOfCum_dx (ofL [1] [5]) (Scalar.r 1) 0)
        (trapezoid_dx (ofL [1] [5]) (Scalar.r 1) 0) := by
  decide

/-- Claim C1 witness: on y = (1, 2, 3), for both overloads, the last entry of
the cumulative integral equals the definite integral. -/
theorem cumulative_last_eq_trapezoid_witness :
    EEqv (lastOfCum (ofL [3] [1, 2, 3]) (ofL [3] [0, 2, 4]) 0)
      (trapezoid (ofL [3] [1, 2, 3]) (ofL [3] [0, 2, 4]) 0) ∧
    EEqv (lastOfCum_dx (ofL [3] [1, 2, 3]) (Scalar.r 1) 0)
      (trapezoid_dx (ofL [3] [1, 2, 3]) (Scalar.r 1) 0) :=
  ⟨cumulative_last_eq_trapezoid.1 (ofL [3] [1, 2, 3]) (ofL [3] [0, 2, 4]) 0 (by decide)
      (by decide) (by decide),
    cumulative_last_eq_trapezoid.2 (ofL [3] [1, 2, 3]) (Scalar.r 1) 0 (by decide) (by decide)
      (by decide)⟩
